import Mathlib

/-!
Verification development for the lexical-primitive layer of an IRC-style
message parser (src/src/parser.rs).  The seven rules (`space`, `crlf`,
`one_char`, `letter`, `number`, `special`, `nonwhite`) are embedded as pure
functions over byte lists.  A Rust slice `&[u8]` is modelled as `List Nat`
(each element a byte value); the nom result type
`IResult<&[u8], &[u8]> = Result<(&[u8], &[u8]), Err<(&[u8], ErrorKind)>>`
is modelled as an `Except` value, with each byte of a slice modelled as a `Nat` — the complete-input combinators used here
only ever produce the `Err::Error` variant, so that is the only error shape
we embed.

The specification's error names map onto the source's nom `ErrorKind`
values as follows: GreedyRunEmpty is `ErrorKind::TakeWhile1`,
SingleCharacterMismatch is `ErrorKind::Char`, and LiteralSequenceMismatch
is `ErrorKind::CrLf`.
-/

namespace IrcParser

/-- The nom `ErrorKind` values that occur in parser.rs and its tests. -/
inductive ErrorKind where
  | Char
  | TakeWhile1
  | CrLf
deriving DecidableEq, Repr

/-- Model of `IResult<&[u8], &[u8]>` with nom's tuple error type:
success carries `(remainder, consumed)`, failure carries
`(rejected_input, error_kind)`. -/
abbrev IResult := Except (List Nat × ErrorKind) (List Nat × List Nat)

/-- Model of `nom::bytes::complete::take_while1(cond)`: split the input at
the first position whose byte fails `cond` (the consumed part is
`takeWhile cond`, the remainder is `dropWhile cond`); if that first
position is position zero (no byte matched), fail with `TakeWhile1`
carrying the whole input. -/
def take_while1 (cond : Nat → Bool) (input : List Nat) : IResult :=
  if (input.takeWhile cond).isEmpty then
    Except.error (input, ErrorKind.TakeWhile1)
  else
    Except.ok (input.dropWhile cond, input.takeWhile cond)

/-- `pub fn space(input: &[u8])`: `take_while1(|item| item == b' ')(input)`. -/
def space (input : List Nat) : IResult :=
  take_while1 (fun item => item == 0x20) input

/-- `pub fn crlf(input: &[u8])`: `nom::character::complete::crlf(input)`,
which compares the input against the two-byte tag `"\r\n"` and on a full
match returns `take_split(2)` = `(input[2..], input[0..2])`; any other
input (too short or mismatching) fails with `CrLf` carrying the whole
input. -/
def crlf (input : List Nat) : IResult :=
  if input.take 2 = [0x0D, 0x0A] then
    Except.ok (input.drop 2, input.take 2)
  else
    Except.error (input, ErrorKind.CrLf)

/-- `pub fn one_char(input: &[u8])`: fail with `Char` on empty input,
otherwise return `(&input[1..], &input[0..1])`. -/
def one_char (input : List Nat) : IResult :=
  if input.isEmpty then
    Except.error (input, ErrorKind.Char)
  else
    Except.ok (input.drop 1, input.take 1)

/-- nom's `AsChar::is_alpha` for `u8`: ASCII `A`–`Z` or `a`–`z`. -/
def is_alpha (b : Nat) : Bool :=
  (0x41 ≤ b && b ≤ 0x5A) || (0x61 ≤ b && b ≤ 0x7A)

/-- nom's `AsChar::is_dec_digit` for `u8`: ASCII `0`–`9`. -/
def is_dec_digit (b : Nat) : Bool :=
  0x30 ≤ b && b ≤ 0x39

/-- `pub fn letter(input: &[u8])`: fail with `Char` if the input is empty
or `input[0]` is not alphabetic, otherwise consume one byte.  The
`input[0]` access (guarded by the emptiness test) is modelled as
`input.headD 0`. -/
def letter (input : List Nat) : IResult :=
  if input.isEmpty || !(is_alpha (input.headD 0)) then
    Except.error (input, ErrorKind.Char)
  else
    Except.ok (input.drop 1, input.take 1)

/-- `pub fn number(input: &[u8])`: fail with `Char` if the input is empty
or `input[0]` is not a decimal digit, otherwise consume one byte. -/
def number (input : List Nat) : IResult :=
  if input.isEmpty || !(is_dec_digit (input.headD 0)) then
    Except.error (input, ErrorKind.Char)
  else
    Except.ok (input.drop 1, input.take 1)

/-- `pub fn special(input: &[u8])`: fail with `Char` if the input is empty
or `input[0]` is none of the eight bytes `-` (0x2D), `[` (0x5B),
`]` (0x5D), `\` (0x5C), backtick (0x60), `^` (0x5E), 0x7B, 0x7D;
otherwise consume one byte. -/
def special (input : List Nat) : IResult :=
  if input.isEmpty
      || !(input.headD 0 == 0x2D
        || input.headD 0 == 0x5B
        || input.headD 0 == 0x5D
        || input.headD 0 == 0x5C
        || input.headD 0 == 0x60
        || input.headD 0 == 0x5E
        || input.headD 0 == 0x7B
        || input.headD 0 == 0x7D) then
    Except.error (input, ErrorKind.Char)
  else
    Except.ok (input.drop 1, input.take 1)

/-- `pub fn nonwhite(input: &[u8])`: fail with `Char` if the input is empty
or `input[0]` is space (0x20), NUL (0x00), CR (0x0D) or LF (0x0A);
otherwise consume one byte. -/
def nonwhite (input : List Nat) : IResult :=
  if input.isEmpty
      || input.headD 0 == 0x20
      || input.headD 0 == 0x00
      || input.headD 0 == 0x0D
      || input.headD 0 == 0x0A then
    Except.error (input, ErrorKind.Char)
  else
    Except.ok (input.drop 1, input.take 1)

/-- The seven rules of the layer, in the order they appear in parser.rs. -/
def rules : List (List Nat → IResult) :=
  [space, crlf, one_char, letter, number, special, nonwhite]

/-! ## Helper lemmas -/

theorem takeWhile_dropWhile_nil (p : Nat → Bool) (l : List Nat) :
    (l.dropWhile p).takeWhile p = [] := by
  induction l with
  | nil => simp
  | cons b t ih =>
    by_cases hb : p b
    · simpa [List.dropWhile_cons, hb] using ih
    · simp [List.dropWhile_cons, hb, List.takeWhile_cons]

theorem head?_dropWhile_not (p : Nat → Bool) (l : List Nat) (b : Nat)
    (h : (l.dropWhile p).head? = some b) : p b = false := by
  induction l with
  | nil => simp at h
  | cons c t ih =>
    by_cases hc : p c
    · exact ih (by simpa [List.dropWhile_cons, hc] using h)
    · simp [List.dropWhile_cons, hc] at h
      subst h
      simpa using hc

theorem space_ok_shape (input rem cons : List Nat)
    (h : space input = Except.ok (rem, cons)) :
    rem = input.dropWhile (fun item => item == 0x20) ∧
    cons = input.takeWhile (fun item => item == 0x20) ∧ cons ≠ [] := by
  unfold space take_while1 at h
  split at h
  · simp at h
  · rename_i hne
    simp only [Except.ok.injEq, Prod.mk.injEq] at h
    refine ⟨h.1.symm, h.2.symm, ?_⟩
    simpa [h.2.symm, List.isEmpty_iff] using hne

theorem crlf_ok_shape (input rem cons : List Nat)
    (h : crlf input = Except.ok (rem, cons)) :
    input.take 2 = [0x0D, 0x0A] ∧ rem = input.drop 2 ∧ cons = input.take 2 := by
  unfold crlf at h
  split at h
  · rename_i heq
    simp only [Except.ok.injEq, Prod.mk.injEq] at h
    exact ⟨heq, h.1.symm, h.2.symm⟩
  · simp at h

theorem one_char_ok_shape (input rem cons : List Nat)
    (h : one_char input = Except.ok (rem, cons)) :
    input ≠ [] ∧ rem = input.drop 1 ∧ cons = input.take 1 := by
  unfold one_char at h
  split at h
  · simp at h
  · rename_i hne
    simp only [Except.ok.injEq, Prod.mk.injEq] at h
    exact ⟨by simpa [List.isEmpty_iff] using hne, h.1.symm, h.2.symm⟩

theorem letter_ok_shape (input rem cons : List Nat)
    (h : letter input = Except.ok (rem, cons)) :
    input ≠ [] ∧ rem = input.drop 1 ∧ cons = input.take 1 := by
  unfold letter at h
  split at h
  · simp at h
  · rename_i hne
    simp only [Bool.or_eq_true, not_or, List.isEmpty_iff] at hne
    simp only [Except.ok.injEq, Prod.mk.injEq] at h
    exact ⟨hne.1, h.1.symm, h.2.symm⟩

theorem number_ok_shape (input rem cons : List Nat)
    (h : number input = Except.ok (rem, cons)) :
    input ≠ [] ∧ rem = input.drop 1 ∧ cons = input.take 1 := by
  unfold number at h
  split at h
  · simp at h
  · rename_i hne
    simp only [Bool.or_eq_true, not_or, List.isEmpty_iff] at hne
    simp only [Except.ok.injEq, Prod.mk.injEq] at h
    exact ⟨hne.1, h.1.symm, h.2.symm⟩

theorem special_ok_shape (input rem cons : List Nat)
    (h : special input = Except.ok (rem, cons)) :
    input ≠ [] ∧ rem = input.drop 1 ∧ cons = input.take 1 := by
  unfold special at h
  split at h
  · simp at h
  · rename_i hne
    simp only [Bool.or_eq_true, not_or, List.isEmpty_iff] at hne
    simp only [Except.ok.injEq, Prod.mk.injEq] at h
    exact ⟨hne.1, h.1.symm, h.2.symm⟩

theorem nonwhite_ok_shape (input rem cons : List Nat)
    (h : nonwhite input = Except.ok (rem, cons)) :
    input ≠ [] ∧ rem = input.drop 1 ∧ cons = input.take 1 := by
  unfold nonwhite at h
  split at h
  · simp at h
  · rename_i hne
    simp only [Bool.or_eq_true, not_or, List.isEmpty_iff] at hne
    simp only [Except.ok.injEq, Prod.mk.injEq] at h
    exact ⟨hne.1.1.1.1, h.1.symm, h.2.symm⟩

theorem take_one_append_drop_one (input : List Nat) :
    input.take 1 ++ input.drop 1 = input :=
  List.take_append_drop 1 input

theorem take_one_ne_nil (input : List Nat) (h : input ≠ []) :
    input.take 1 ≠ [] := by
  cases input with
  | nil => exact absurd rfl h
  | cons b t => simp

theorem space_error_shape (input rej : List Nat) (k : ErrorKind)
    (h : space input = Except.error (rej, k)) : rej = input := by
  unfold space take_while1 at h
  split at h
  · simp only [Except.error.injEq, Prod.mk.injEq] at h
    exact h.1.symm
  · simp at h

theorem crlf_error_shape (input rej : List Nat) (k : ErrorKind)
    (h : crlf input = Except.error (rej, k)) : rej = input := by
  unfold crlf at h
  split at h
  · simp at h
  · simp only [Except.error.injEq, Prod.mk.injEq] at h
    exact h.1.symm

theorem one_char_error_shape (input rej : List Nat) (k : ErrorKind)
    (h : one_char input = Except.error (rej, k)) : rej = input := by
  unfold one_char at h
  split at h
  · simp only [Except.error.injEq, Prod.mk.injEq] at h
    exact h.1.symm
  · simp at h

theorem letter_error_shape (input rej : List Nat) (k : ErrorKind)
    (h : letter input = Except.error (rej, k)) : rej = input := by
  unfold letter at h
  split at h
  · simp only [Except.error.injEq, Prod.mk.injEq] at h
    exact h.1.symm
  · simp at h

theorem number_error_shape (input rej : List Nat) (k : ErrorKind)
    (h : number input = Except.error (rej, k)) : rej = input := by
  unfold number at h
  split at h
  · simp only [Except.error.injEq, Prod.mk.injEq] at h
    exact h.1.symm
  · simp at h

theorem special_error_shape (input rej : List Nat) (k : ErrorKind)
    (h : special input = Except.error (rej, k)) : rej = input := by
  unfold special at h
  split at h
  · simp only [Except.error.injEq, Prod.mk.injEq] at h
    exact h.1.symm
  · simp at h

theorem nonwhite_error_shape (input rej : List Nat) (k : ErrorKind)
    (h : nonwhite input = Except.error (rej, k)) : rej = input := by
  unfold nonwhite at h
  split at h
  · simp only [Except.error.injEq, Prod.mk.injEq] at h
    exact h.1.symm
  · simp at h

/-! ## The claims -/

/-- Claim C1: round-trip law — for every rule (space, crlf, one_char,
letter, number, special, nonwhite) and every input on which the rule
succeeds, concatenating the returned consumed view and the returned
remainder view reproduces the original input view byte-for-byte. -/
theorem C1_round_trip :
    ∀ r ∈ rules, ∀ input rem cons : List Nat,
      r input = Except.ok (rem, cons) → cons ++ rem = input := by
  intro r hr input rem cons h
  simp only [rules, List.mem_cons, List.not_mem_nil, or_false] at hr
  rcases hr with rfl | rfl | rfl | rfl | rfl | rfl | rfl
  · obtain ⟨h1, h2, -⟩ := space_ok_shape input rem cons h
    subst h1; subst h2
    exact List.takeWhile_append_dropWhile _ input
  · obtain ⟨-, h1, h2⟩ := crlf_ok_shape input rem cons h
    subst h1; subst h2
    exact List.take_append_drop 2 input
  · obtain ⟨-, h1, h2⟩ := one_char_ok_shape input rem cons h
    subst h1; subst h2
    exact take_one_append_drop_one input
  · obtain ⟨-, h1, h2⟩ := letter_ok_shape input rem cons h
    subst h1; subst h2
    exact take_one_append_drop_one input
  · obtain ⟨-, h1, h2⟩ := number_ok_shape input rem cons h
    subst h1; subst h2
    exact take_one_append_drop_one input
  · obtain ⟨-, h1, h2⟩ := special_ok_shape input rem cons h
    subst h1; subst h2
    exact take_one_append_drop_one input
  · obtain ⟨-, h1, h2⟩ := nonwhite_ok_shape input rem cons h
    subst h1; subst h2
    exact take_one_append_drop_one input

/-- Witness for C1: `space` applied to two spaces followed by `a`. -/
theorem C1_round_trip_witness :
    ([0x20, 0x20] : List Nat) ++ [0x61] = [0x20, 0x20, 0x61] :=
  C1_round_trip space (by simp [rules]) [0x20, 0x20, 0x61] [0x61] [0x20, 0x20]
    (by rfl)

/-- Claim C2: failure atomicity — for every rule and every input on which
the rule fails, the failure value carries the original input view
unchanged, so the caller can retry the exact same input with a different
rule. -/
theorem C2_failure_atomicity :
    ∀ r ∈ rules, ∀ input rej : List Nat, ∀ k : ErrorKind,
      r input = Except.error (rej, k) → rej = input := by
  intro r hr input rej k h
  simp only [rules, List.mem_cons, List.not_mem_nil, or_false] at hr
  rcases hr with rfl | rfl | rfl | rfl | rfl | rfl | rfl
  · exact space_error_shape input rej k h
  · exact crlf_error_shape input rej k h
  · exact one_char_error_shape input rej k h
  · exact letter_error_shape input rej k h
  · exact number_error_shape input rej k h
  · exact special_error_shape input rej k h
  · exact nonwhite_error_shape input rej k h

/-- Witness for C2: `number` rejecting the input `"a"` hands back that
same input. -/
theorem C2_failure_atomicity_witness : ([0x61] : List Nat) = [0x61] :=
  C2_failure_atomicity number (by simp [rules]) [0x61] [0x61] ErrorKind.Char
    (by rfl)

/-- Claim C3: space contract — on every input whose first byte is 0x20,
space succeeds, the consumed view is the longest non-empty prefix of 0x20
bytes (every consumed byte is 0x20 and the remainder does not start with
0x20), and consumed ++ remainder reproduces the input; on the empty input
and on every input whose first byte is not 0x20, space fails with
GreedyRunEmpty (nom's `TakeWhile1`) carrying the untouched input. -/
theorem C3_space_contract (input : List Nat) :
    (input.head? = some 0x20 →
      ∃ rem cons, space input = Except.ok (rem, cons) ∧ cons ≠ [] ∧
        (∀ b ∈ cons, b = 0x20) ∧ rem.head? ≠ some 0x20 ∧
        cons ++ rem = input) ∧
    (input.head? ≠ some 0x20 →
      space input = Except.error (input, ErrorKind.TakeWhile1)) := by
  constructor
  · intro hh
    cases input with
    | nil => simp at hh
    | cons b t =>
      simp only [List.head?_cons, Option.some.injEq] at hh
      subst hh
      refine ⟨(0x20 :: t).dropWhile (fun item => item == 0x20),
        (0x20 :: t).takeWhile (fun item => item == 0x20), ?_, ?_, ?_, ?_, ?_⟩
      · unfold space take_while1
        rw [if_neg]
        simp [List.takeWhile_cons]
      · simp [List.takeWhile_cons]
      · intro b hb
        simpa using List.mem_takeWhile_imp hb
      · intro hc
        have := head?_dropWhile_not (fun item => item == 0x20) (0x20 :: t) 0x20 hc
        simp at this
      · exact List.takeWhile_append_dropWhile _ _
  · intro hh
    cases input with
    | nil => rfl
    | cons b t =>
      simp only [List.head?_cons, ne_eq, Option.some.injEq] at hh
      unfold space take_while1
      rw [if_pos]
      simp [List.takeWhile_cons, hh]

/-- Witness for C3: `space` on `" a"` (first byte 0x20). -/
theorem C3_space_contract_witness :
    ∃ rem cons, space [0x20, 0x61] = Except.ok (rem, cons) ∧ cons ≠ [] ∧
      (∀ b ∈ cons, b = 0x20) ∧ rem.head? ≠ some 0x20 ∧
      cons ++ rem = [0x20, 0x61] :=
  (C3_space_contract [0x20, 0x61]).1 (by rfl)

/-- Claim C4: crlf contract — crlf succeeds exactly on inputs beginning
with the bytes 0x0D 0x0A in that order, consuming exactly those two bytes
and returning the rest as the remainder; on every other input it fails
with LiteralSequenceMismatch (nom's `CrLf`) carrying the original
input. -/
theorem C4_crlf_contract (input : List Nat) :
    (∀ rest : List Nat, input = 0x0D :: 0x0A :: rest →
      crlf input = Except.ok (rest, [0x0D, 0x0A])) ∧
    ((∀ rest : List Nat, input ≠ 0x0D :: 0x0A :: rest) →
      crlf input = Except.error (input, ErrorKind.CrLf)) := by
  constructor
  · rintro rest rfl
    rfl
  · intro hno
    unfold crlf
    rw [if_neg]
    intro hc
    refine hno (input.drop 2) ?_
    conv_lhs => rw [← List.take_append_drop 2 input]
    rw [hc]
    rfl

/-- Witness for C4: `crlf` on `"\r\nabcd"`. -/
theorem C4_crlf_contract_witness :
    crlf [0x0D, 0x0A, 0x61, 0x62, 0x63, 0x64] =
      Except.ok (([0x61, 0x62, 0x63, 0x64] : List Nat),
        ([0x0D, 0x0A] : List Nat)) :=
  (C4_crlf_contract [0x0D, 0x0A, 0x61, 0x62, 0x63, 0x64]).1
    [0x61, 0x62, 0x63, 0x64] rfl

/-- Claim C5: letter contract — on every non-empty input whose first byte
is an ASCII letter (`A`–`Z`, 0x41–0x5A, or `a`–`z`, 0x61–0x7A), letter
succeeds, consuming exactly that byte with the remainder being the input
minus that byte; on every input whose first byte is not an ASCII letter,
including the empty input, letter fails with SingleCharacterMismatch
(nom's `Char`) carrying the untouched input. -/
theorem C5_letter_contract (input : List Nat) :
    (∀ b t, input = b :: t →
      ((0x41 ≤ b ∧ b ≤ 0x5A) ∨ (0x61 ≤ b ∧ b ≤ 0x7A)) →
      letter input = Except.ok (t, [b])) ∧
    ((∀ b t, input = b :: t →
        ¬((0x41 ≤ b ∧ b ≤ 0x5A) ∨ (0x61 ≤ b ∧ b ≤ 0x7A))) →
      letter input = Except.error (input, ErrorKind.Char)) := by
  constructor
  · rintro b t rfl hb
    have halpha : is_alpha b = true := by
      unfold is_alpha
      rcases hb with ⟨h1, h2⟩ | ⟨h1, h2⟩ <;> simp [h1, h2]
    simp [letter, halpha]
  · intro hno
    cases input with
    | nil => rfl
    | cons b t =>
      have hb := hno b t rfl
      have halpha : is_alpha b = false := by
        unfold is_alpha
        simp only [Bool.or_eq_false_iff, Bool.and_eq_false_iff,
          decide_eq_false_iff_not]
        omega
      simp [letter, halpha]

/-- Witness for C5: `letter` on `"ab1-"` consumes `a`. -/
theorem C5_letter_contract_witness :
    letter [0x61, 0x62, 0x31, 0x2D] =
      Except.ok (([0x62, 0x31, 0x2D] : List Nat), ([0x61] : List Nat)) :=
  (C5_letter_contract [0x61, 0x62, 0x31, 0x2D]).1 0x61 [0x62, 0x31, 0x2D]
    rfl (by decide)

/-- Claim C6: nonwhite contract — on every non-empty input whose first
byte is none of 0x20 (space), 0x00 (NUL), 0x0D (CR), 0x0A (LF), nonwhite
succeeds, consuming exactly that first byte with the remainder being the
input minus that byte; on the empty input and on every input whose first
byte is one of those four bytes, nonwhite fails with
SingleCharacterMismatch (nom's `Char`) carrying the original untouched
input. -/
theorem C6_nonwhite_contract (input : List Nat) :
    (∀ b t, input = b :: t →
      b ≠ 0x20 → b ≠ 0x00 → b ≠ 0x0D → b ≠ 0x0A →
      nonwhite input = Except.ok (t, [b])) ∧
    ((input = [] ∨ ∃ b t, input = b :: t ∧
        (b = 0x20 ∨ b = 0x00 ∨ b = 0x0D ∨ b = 0x0A)) →
      nonwhite input = Except.error (input, ErrorKind.Char)) := by
  constructor
  · rintro b t rfl h1 h2 h3 h4
    simp [nonwhite, h1, h2, h3, h4]
  · rintro (rfl | ⟨b, t, rfl, rfl | rfl | rfl | rfl⟩) <;> rfl

/-- Witness for C6: `nonwhite` on a tab followed by `"2a-"`. -/
theorem C6_nonwhite_contract_witness :
    nonwhite [0x09, 0x32, 0x61, 0x2D] =
      Except.ok (([0x32, 0x61, 0x2D] : List Nat), ([0x09] : List Nat)) :=
  (C6_nonwhite_contract [0x09, 0x32, 0x61, 0x2D]).1 0x09 [0x32, 0x61, 0x2D]
    rfl (by decide) (by decide) (by decide) (by decide)

/-- Claim C7: one_char contract — one_char succeeds on every non-empty
input, unconditionally consuming exactly the first byte and returning the
remainder equal to the input minus that byte; it fails with
SingleCharacterMismatch (nom's `Char`) carrying the untouched input
exactly when the input is empty. -/
theorem C7_one_char_contract (input : List Nat) :
    (∀ b t, input = b :: t → one_char input = Except.ok (t, [b])) ∧
    (input = [] → one_char input = Except.error ([], ErrorKind.Char)) := by
  constructor
  · rintro b t rfl
    rfl
  · rintro rfl
    rfl

/-- Witness for C7: `one_char` on `"ab1-"` consumes `a`. -/
theorem C7_one_char_contract_witness :
    one_char [0x61, 0x62, 0x31, 0x2D] =
      Except.ok (([0x62, 0x31, 0x2D] : List Nat), ([0x61] : List Nat)) :=
  (C7_one_char_contract [0x61, 0x62, 0x31, 0x2D]).1 0x61 [0x62, 0x31, 0x2D] rfl

/-- Claim C8: space idempotence on the remainder — for every input on
which space succeeds, applying space to the returned remainder always
fails; equivalently the remainder's first byte, if any, is never 0x20. -/
theorem C8_space_idempotent (input rem cons : List Nat)
    (h : space input = Except.ok (rem, cons)) :
    space rem = Except.error (rem, ErrorKind.TakeWhile1) ∧
    rem.head? ≠ some 0x20 := by
  obtain ⟨h1, -, -⟩ := space_ok_shape input rem cons h
  subst h1
  constructor
  · unfold space take_while1
    simp [takeWhile_dropWhile_nil]
  · intro hh
    have := head?_dropWhile_not (fun item => item == 0x20) input 0x20 hh
    simp at this

/-- Witness for C8: `space` on `"  a"` leaves remainder `"a"`, on which
space fails. -/
theorem C8_space_idempotent_witness :
    space [0x61] = Except.error (([0x61] : List Nat), ErrorKind.TakeWhile1) ∧
    ([0x61] : List Nat).head? ≠ some 0x20 :=
  C8_space_idempotent [0x20, 0x20, 0x61] [0x61] [0x20, 0x20] (by rfl)

/-- Claim C9: non-empty-consumption invariant — for every rule in the
layer and every input on which the rule succeeds, the consumed prefix view
is non-empty. -/
theorem C9_nonempty_consumption :
    ∀ r ∈ rules, ∀ input rem cons : List Nat,
      r input = Except.ok (rem, cons) → cons ≠ [] := by
  intro r hr input rem cons h
  simp only [rules, List.mem_cons, List.not_mem_nil, or_false] at hr
  rcases hr with rfl | rfl | rfl | rfl | rfl | rfl | rfl
  · exact (space_ok_shape input rem cons h).2.2
  · obtain ⟨h1, -, h2⟩ := crlf_ok_shape input rem cons h
    subst h2
    simp [h1]
  · obtain ⟨h1, -, h2⟩ := one_char_ok_shape input rem cons h
    subst h2
    exact take_one_ne_nil input h1
  · obtain ⟨h1, -, h2⟩ := letter_ok_shape input rem cons h
    subst h2
    exact take_one_ne_nil input h1
  · obtain ⟨h1, -, h2⟩ := number_ok_shape input rem cons h
    subst h2
    exact take_one_ne_nil input h1
  · obtain ⟨h1, -, h2⟩ := special_ok_shape input rem cons h
    subst h2
    exact take_one_ne_nil input h1
  · obtain ⟨h1, -, h2⟩ := nonwhite_ok_shape input rem cons h
    subst h2
    exact take_one_ne_nil input h1

/-- Witness for C9: `crlf` on `"\r\nabcd"` consumes `[0x0D, 0x0A]`,
which is non-empty. -/
theorem C9_nonempty_consumption_witness : ([0x0D, 0x0A] : List Nat) ≠ [] :=
  C9_nonempty_consumption crlf (by simp [rules])
    [0x0D, 0x0A, 0x61, 0x62, 0x63, 0x64] [0x61, 0x62, 0x63, 0x64]
    [0x0D, 0x0A] (by rfl)

/-- Claim C10: implicit subsumption — whenever one of the four predicate
classifiers letter, number, special, or nonwhite succeeds on an input,
one_char also succeeds on that same input and returns the identical
(remainder, consumed) pair. -/
theorem C10_subsumption :
    ∀ r ∈ [letter, number, special, nonwhite], ∀ input rem cons : List Nat,
      r input = Except.ok (rem, cons) → one_char input = Except.ok (rem, cons) := by
  intro r hr input rem cons h
  simp only [List.mem_cons, List.not_mem_nil, or_false] at hr
  have step : input ≠ [] ∧ rem = input.drop 1 ∧ cons = input.take 1 := by
    rcases hr with rfl | rfl | rfl | rfl
    · exact letter_ok_shape input rem cons h
    · exact number_ok_shape input rem cons h
    · exact special_ok_shape input rem cons h
    · exact nonwhite_ok_shape input rem cons h
  obtain ⟨hne, h1, h2⟩ := step
  subst h1; subst h2
  unfold one_char
  simp [List.isEmpty_iff, hne]

/-- Witness for C10: `special` succeeds on `"[2a-"`; `one_char` returns
the identical pair. -/
theorem C10_subsumption_witness :
    one_char [0x5B, 0x32, 0x61, 0x2D] =
      Except.ok (([0x32, 0x61, 0x2D] : List Nat), ([0x5B] : List Nat)) :=
  C10_subsumption special (by simp) [0x5B, 0x32, 0x61, 0x2D]
    [0x32, 0x61, 0x2D] [0x5B] (by rfl)

end IrcParser
